import Mathlib

/-!
Verification of the FGBrowser crawling pipeline.

This file gives a shallow embedding, in Lean, of the text-processing and
control-flow core of the FGBrowser repository (a Tauri desktop app whose
crawler walks the FitGirl listing site):

* `parse_size_to_mb` / `parse_single_size` — src/src-tauri/src/commands/utils.rs
* `clean_game_title`                       — src/desktop/src-tauri/src/crawler/title_cleaner.rs
* `is_blacklisted` / `is_popular_blacklisted` — crawler/fitgirl.rs, commands/utils.rs
* `extract_game_details` (label scanning)  — src/src-tauri/src/crawler/extractors.rs
* screenshot selection                     — src/src-tauri/src/crawler/riotpixels.rs
* `update_database` loop, `save_repacks_to_db` — commands/crawler_commands.rs

Strings are modelled as `List Char` (Rust `&str`; the byte offsets used by the
source are always offsets of ASCII search patterns, so character indices and
byte indices coincide at every slicing point the code performs).

Rust `f64` values are modelled exactly: a finite double is a rational number,
`roundF64` is IEEE-754 round-to-nearest-even into the binary64 format, and
decimal-literal parsing (`str::parse::<f64>`) is exact decimal reading followed
by `roundF64`.  Multiplying a finite double by `1024.0` or `1048576.0` (exact
powers of two) is exact in binary64, and the `as i64` cast is truncation toward
zero with saturation, modelled by `f64ToI64`.  The model covers finite decimal
literals (optional sign, digits with optional fraction and exponent); the
special spellings `inf`/`NaN` accepted by Rust's parser, and overflow of the
exponent range into infinities, are outside the model — no size string on the
crawled site uses them.
-/

/-- Unicode `White_Space` code points (Rust `char::is_whitespace`, and the
`\s` class of the `regex` crate). -/
def isWhite (c : Char) : Bool :=
  c == ' ' || (c ≥ '\u0009' && c ≤ '\u000D') ||
  c == '\u0085' || c == ' ' || c == ' ' ||
  (c ≥ ' ' && c ≤ ' ') ||
  c == ' ' || c == ' ' || c == ' ' || c == ' ' || c == '　'

/-- ASCII decimal digit (the numeric strings handled by the code are ASCII;
the Unicode `\d` class of the `regex` crate restricted to ASCII). -/
def isDigitC (c : Char) : Bool :=
  '0' ≤ c && c ≤ '9'

/-- `pat` is a prefix of `s` (Rust `str::starts_with`). -/
def listStartsWith : List Char → List Char → Bool
  | [], _ => true
  | _ :: _, [] => false
  | p :: ps, c :: cs => p == c && listStartsWith ps cs

/-- `pat` occurs as a contiguous substring of `hay` (Rust `str::contains`). -/
def containsSub (hay pat : List Char) : Bool :=
  match hay with
  | [] => listStartsWith pat []
  | _ :: t => listStartsWith pat hay || containsSub t pat

/-- Character index of the first occurrence of `pat` in `hay`
(Rust `str::find`; byte and char indices agree for the ASCII labels used). -/
def findSub (hay pat : List Char) : Option Nat :=
  match hay with
  | [] => if listStartsWith pat [] then some 0 else none
  | _ :: t =>
    if listStartsWith pat hay then some 0
    else (findSub t pat).map (· + 1)

/-- Rust `str::split(sep)`: splits at every separator, keeping empty pieces. -/
def splitOnChar (sep : Char) : List Char → List (List Char)
  | [] => [[]]
  | c :: rest =>
    if c == sep then [] :: splitOnChar sep rest
    else
      match splitOnChar sep rest with
      | [] => [[c]]
      | g :: gs => (c :: g) :: gs

/-- Single-pass worker for `splitWS`; `acc` holds the current word, reversed. -/
def splitWSAux : List Char → List Char → List (List Char)
  | [], acc => if acc.isEmpty then [] else [acc.reverse]
  | c :: rest, acc =>
    if isWhite c then
      if acc.isEmpty then splitWSAux rest []
      else acc.reverse :: splitWSAux rest []
    else splitWSAux rest (c :: acc)

/-- Rust `str::split_whitespace`: maximal runs of non-whitespace. -/
def splitWS (s : List Char) : List (List Char) :=
  splitWSAux s []

/-- Rust `str::trim` (strip Unicode whitespace from both ends). -/
def trimList (s : List Char) : List Char :=
  ((s.dropWhile isWhite).reverse.dropWhile isWhite).reverse

/-- Rust `str::to_lowercase`, restricted to the ASCII case mapping
(the blacklist patterns and the URLs/titles they are matched against are
ASCII; Lean's `Char.toLower` lowers exactly `A`–`Z`). -/
def lowerStr (s : List Char) : List Char :=
  s.map Char.toLower

/-- `⌊log₂ n⌋` by structural (fuel) recursion; called with `fuel = n`, which
always suffices since the argument at least halves each step. -/
def natLog2F : Nat → Nat → Nat
  | 0, _ => 0
  | fuel + 1, n => if 2 ≤ n then natLog2F fuel (n / 2) + 1 else 0

/-- `⌊log₂ (n/d)⌋` for `n, d ≥ 1`: the integer logs of numerator and
denominator give a candidate off by at most one, which is then adjusted until
`2^e ≤ n/d < 2^(e+1)` (comparisons cleared of the denominators). -/
def floorLog2Frac (n d : Nat) : ℤ :=
  let le2 : ℤ → Bool := fun e =>
    if 0 ≤ e then d * 2 ^ e.toNat ≤ n else d ≤ n * 2 ^ (-e).toNat
  let e0 : ℤ := (natLog2F n n : ℤ) - (natLog2F d d : ℤ)
  let e1 : ℤ := if le2 e0 then e0 else e0 - 1
  if le2 (e1 + 1) then e1 + 1 else e1

/-- The exact value of a finite binary64 number: `m · 2^e`.  A normal double
has `2^52 ≤ |m| < 2^53`; all integer arithmetic on doubles below is exact. -/
structure Fp where
  m : ℤ
  e : ℤ
deriving DecidableEq, Repr

/-- The rational value denoted by a finite double. -/
def Fp.val (f : Fp) : ℚ :=
  (f.m : ℚ) * (2 : ℚ) ^ f.e

/-- Round `nn/dd` (`dd > 0`) to the nearest natural, ties to even
(the IEEE 754 default rounding). -/
def rnePair (nn dd : Nat) : Nat :=
  let q := nn / dd
  let r := nn % dd
  if 2 * r < dd then q
  else if dd < 2 * r then q + 1
  else if q % 2 = 0 then q else q + 1

/-- Round the exact rational `num/den` (`den > 0`) to the nearest binary64
value (round-to-nearest, ties to even): find `e = ⌊log₂ |num/den|⌋`, scale the
significand into `[2^52, 2^53)` and round it, giving `m · 2^(e-52)`.
Exponent overflow into infinities and subnormal underflow are outside the
model (no size string on the crawled site comes near either). -/
def roundToFp (num : ℤ) (den : Nat) : Fp :=
  if num = 0 then ⟨0, 0⟩
  else
    let n := num.natAbs
    let e : ℤ := floorLog2Frac n den
    let N := n * 2 ^ ((52 - e).toNat)
    let D := den * 2 ^ ((e - 52).toNat)
    let m0 := rnePair N D
    ⟨if num < 0 then -(m0 : ℤ) else (m0 : ℤ), e - 52⟩

/-- Numeric value of a run of ASCII digits (most significant first). -/
def digitsValN (ds : List Char) : Nat :=
  ds.foldl (fun acc d => acc * 10 + (d.toNat - '0'.toNat)) 0

/-- Exponent part of a decimal literal: optional sign then a nonempty digit run. -/
def parseExpPart (s : List Char) : Option ℤ :=
  match s with
  | '+' :: d => if d ≠ [] && d.all isDigitC then some (digitsValN d : ℤ) else none
  | '-' :: d => if d ≠ [] && d.all isDigitC then some (-(digitsValN d : ℤ)) else none
  | d => if d ≠ [] && d.all isDigitC then some (digitsValN d : ℤ) else none

/-- Unsigned decimal literal `digits [. digits] [(e|E) exp]` with at least one
mantissa digit, read exactly as a fraction `num/den`. -/
def parseUnsignedDec (s : List Char) : Option (ℤ × ℕ) :=
  let intPart := s.takeWhile isDigitC
  let rest := s.dropWhile isDigitC
  let withExp : ℕ → ℕ → Option ℤ → Option (ℤ × ℕ) := fun num den ex =>
    match ex with
    | none => none
    | some x =>
      if 0 ≤ x then some (((num * 10 ^ x.toNat : ℕ) : ℤ), den)
      else some ((num : ℤ), den * 10 ^ (-x).toNat)
  match rest with
  | [] => if intPart = [] then none else some ((digitsValN intPart : ℤ), 1)
  | '.' :: r2 =>
    let frac := r2.takeWhile isDigitC
    let rest2 := r2.dropWhile isDigitC
    if intPart = [] && frac = [] then none
    else
      let num : ℕ := digitsValN intPart * 10 ^ frac.length + digitsValN frac
      let den : ℕ := 10 ^ frac.length
      match rest2 with
      | [] => some ((num : ℤ), den)
      | e :: r3 =>
        if e == 'e' || e == 'E' then withExp num den (parseExpPart r3)
        else none
  | e :: r2 =>
    if (e == 'e' || e == 'E') && intPart ≠ [] then
      withExp (digitsValN intPart) 1 (parseExpPart r2)
    else none

/-- Exact value of a decimal literal (optional sign), before rounding. -/
def parseDecimal (s : List Char) : Option (ℤ × ℕ) :=
  match s with
  | '+' :: r => parseUnsignedDec r
  | '-' :: r => (parseUnsignedDec r).map (fun p => (-p.1, p.2))
  | r => parseUnsignedDec r

/-- Rust `str::parse::<f64>` on a finite decimal literal: exact decimal value,
correctly rounded into binary64.  The special spellings `inf`/`NaN` Rust also
accepts are outside the model. -/
def parseF64 (s : List Char) : Option Fp :=
  (parseDecimal s).map (fun p => roundToFp p.1 p.2)

/-- Multiplication of a finite double by `2^k`, which is exact in binary64
(barring exponent overflow): only the exponent moves. -/
def fpMulPow2 (f : Fp) (k : ℕ) : Fp :=
  ⟨f.m, f.e + k⟩

/-- Rust `f64 as i64`: truncation toward zero, saturating at the `i64` range. -/
def f64ToI64 (f : Fp) : ℤ :=
  let t : ℤ :=
    if 0 ≤ f.e then f.m * 2 ^ f.e.toNat
    else Int.tdiv f.m (2 ^ (-f.e).toNat)
  if 2 ^ 63 ≤ t then 2 ^ 63 - 1
  else if t < -(2 ^ 63) then -(2 ^ 63)
  else t

/-- Unit recognition of `parse_single_size` (utils.rs lines 90–98): the unit
token's leading characters, checked in the order `MB`, `GB`, `TB`; the result
is the base-2 log of the MB-conversion factor (`1`, `1024`, `1024·1024`). -/
def unitFactorOf (u : List Char) : Option ℕ :=
  if listStartsWith "MB".data u then some 0
  else if listStartsWith "GB".data u then some 10
  else if listStartsWith "TB".data u then some 20
  else none

/-- `parse_single_size` (utils.rs lines 79–112): split on whitespace, need a
number token and a unit token; multiply by the unit factor (exact in binary64,
as the factor is a power of two) and cast to `i64`. -/
def parse_single_size (s : List Char) : Option ℤ :=
  match splitWS s with
  | n :: u :: _ =>
    match unitFactorOf u with
    | none => none
    | some k => (parseF64 n).map (fun f => f64ToI64 (fpMulPow2 f k))
  | _ => none

/-- The prefix/suffix stripping of `parse_size_to_mb` (utils.rs lines 18–29):
trim, drop a leading `"from "` then a leading `"~"`, cut at the first `[`,
trim again. -/
def stripSizeStr (raw : List Char) : List Char :=
  let original := trimList raw
  let s1 := if listStartsWith "from ".data original then original.drop 5 else original
  let s2 := if listStartsWith "~".data s1 then s1.drop 1 else s1
  trimList ((splitOnChar '[' s2).headD s2)

/-- First candidate of a dual `a/b` size (utils.rs lines 36–51): if the first
part is a single token and the second has at least two, the second token of the
second part (its unit) is imputed onto the first part. -/
def firstCandidateSize (first_part second_part : List Char) : Option ℤ :=
  if (splitWS first_part).length == 1 && (splitWS second_part).length ≥ 2 then
    let sps := splitWS second_part
    if sps.length ≥ 2 then
      parse_single_size (first_part ++ ' ' :: sps.getD 1 [])
    else none
  else parse_single_size first_part

/-- `parse_size_to_mb` (utils.rs lines 17–76). -/
def parse_size_to_mb (o : Option (List Char)) : Option ℤ :=
  match o with
  | none => none
  | some raw =>
    let s3 := stripSizeStr raw
    if s3.contains '/' then
      let parts := splitOnChar '/' s3
      if parts.length ≥ 2 then
        let first_part := trimList (parts.headD [])
        let second_part := trimList (parts.getD 1 [])
        let first_size := firstCandidateSize first_part second_part
        let second_size := parse_single_size second_part
        match first_size, second_size with
        | some a, some b => some (min a b)
        | some a, none => some a
        | none, some b => some b
        | none, none => none
      else none
    else parse_single_size s3

/-- `parse_size_to_mb` on Lean strings. -/
def parseSizeToMbS (s : String) : Option ℤ :=
  parse_size_to_mb (some s.data)

/-!
### A small regex engine

`clean_game_title` is a pipeline of 28 `Regex::replace_all` calls.  The `regex`
crate has leftmost-first (Perl-style) match semantics: the match starts at the
leftmost possible position and, among the matches there, backtracking priority
applies — alternatives in order, greedy quantifiers preferring more
repetitions.  `runRe` returns the list of possible suffixes remaining after a
match at position 0, in priority order, so its head is the chosen match end.
None of the patterns below can match the empty string, but the engine handles
empty matches the way `replace_all` does (replace, then bump one character).
Star iteration uses fuel bounded by the suffix length; since an iteration of
any of the star bodies below consumes at least one character (enforced by the
progress filter, which never changes the semantics of these patterns), the
fuel `length + 1` is always sufficient.
-/

inductive RE where
  | eps
  | cls (p : Char → Bool)
  | cat (a b : RE)
  | alt (a b : RE)
  | star (a : RE)
  | anchorE

/-- Greedy star iteration in continuation style: prefer consuming one more
(nonempty) body match, then fall back to stopping here. -/
def starC (f : List Char → (List Char → Option (List Char)) → Option (List Char)) :
    Nat → List Char → (List Char → Option (List Char)) → Option (List Char)
  | 0, s, k => k s
  | fuel + 1, s, k =>
    (f s (fun t => if t.length < s.length then starC f fuel t k else none)) <|> k s

/-- Backtracking matcher in continuation style: the first success, in
backtracking priority order, of a match of `re` at position 0 of `s` followed
by the continuation `k` on the remaining suffix. -/
def matchC : RE → List Char → (List Char → Option (List Char)) → Option (List Char)
  | .eps, s, k => k s
  | .cls p, s, k =>
    match s with
    | [] => none
    | c :: rest => if p c then k rest else none
  | .anchorE, s, k => if s.isEmpty then k s else none
  | .cat a b, s, k => matchC a s (fun t => matchC b t k)
  | .alt a b, s, k => (matchC a s k) <|> (matchC b s k)
  | .star a, s, k => starC (fun t k1 => matchC a t k1) (s.length + 1) s k

/-- The suffix remaining after the leftmost-first match of `re` at position 0
of `s`, if any. -/
def firstEnd (re : RE) (s : List Char) : Option (List Char) :=
  matchC re s some

/-- Rust `Regex::replace_all` with replacement `rep`, one position at a time:
match at the current position (leftmost), else keep the character and advance.
Fuel is the remaining length plus one, which always suffices. -/
def replFuel (re : RE) (rep : List Char) : Nat → List Char → List Char
  | 0, s => s
  | fuel + 1, s =>
    match firstEnd re s with
    | none =>
      match s with
      | [] => []
      | c :: rest => c :: replFuel re rep fuel rest
    | some t =>
      if t.length < s.length then rep ++ replFuel re rep fuel t
      else
        match s with
        | [] => rep
        | c :: rest => rep ++ c :: replFuel re rep fuel rest

/-- Rust `Regex::replace_all`. -/
def replaceAll (re : RE) (rep s : List Char) : List Char :=
  replFuel re rep (s.length + 1) s

/-- `replace_all` with the empty replacement (all the cleaner's rules but one). -/
def delAll (re : RE) (s : List Char) : List Char :=
  replaceAll re [] s

/-- Pattern combinators mirroring the regex syntax used by the source. -/
def reSeq (l : List RE) : RE :=
  l.foldr RE.cat RE.eps

def reAlts : List RE → RE
  | [] => RE.cls (fun _ => false)
  | [r] => r
  | r :: rs => RE.alt r (reAlts rs)

def lit (s : String) : RE :=
  reSeq (s.data.map (fun c => RE.cls (fun d => d == c)))

def chr (c : Char) : RE :=
  RE.cls (fun d => d == c)

/-- `\s*` -/
def wsS : RE := RE.star (RE.cls isWhite)

/-- `\s+` -/
def wsP : RE := RE.cat (RE.cls isWhite) wsS

/-- `\d+` -/
def digP : RE := RE.cat (RE.cls isDigitC) (RE.star (RE.cls isDigitC))

/-- `r?` (greedy) -/
def opt (r : RE) : RE := RE.alt r RE.eps

/-- `.*` (`.` excludes `\n`) -/
def dotAll : RE := RE.star (RE.cls (fun c => !(c == '\n')))

/-- `r{n}` -/
def rep (r : RE) (n : Nat) : RE := reSeq (List.replicate n r)

/-- `(?:\.\d+)*` -/
def dotDigStar : RE := RE.star (reSeq [chr '.', digP])

/-- `\d{1,2}` (greedy: two digits preferred) -/
def dig12 : RE := reSeq [RE.cls isDigitC, opt (RE.cls isDigitC)]

/-- The dash character class of title_cleaner.rs.  The source file stores the
en dash of the site's titles in a corrupted (double-encoded) form: its
`[‚Äì\-‚Äì]` classes contain U+201A, U+00C4, U+00EC and `-` — not the en dash
U+2013 itself. -/
def isDashMoji (c : Char) : Bool :=
  c == '‚' || c == 'Ä' || c == 'ì' || c == '-'

/-- `[‚Äì\-‚Äì]` as written in title_cleaner.rs -/
def dashC : RE := RE.cls isDashMoji

/-!  The 28 patterns of `clean_game_title`, in source order (title_cleaner.rs
lines 9–115), with the source's variable names. -/

/-- `/.*` -/
def slash_regex : RE := reSeq [chr '/', dotAll]

/-- `,\s*v\d+.*` -/
def comma_version_regex : RE := reSeq [chr ',', wsS, chr 'v', digP, dotAll]

/-- `,\s*Build\s+\d+.*` -/
def comma_build_regex : RE := reSeq [chr ',', wsS, lit "Build", wsP, digP, dotAll]

/-- `\s*[‚Äì\-‚Äì]\s*v\d+(?:\.\d+)*(?:\.\d+)*(?:\.\d+)*` -/
def version_regex : RE :=
  reSeq [wsS, dashC, wsS, chr 'v', digP, dotDigStar, dotDigStar, dotDigStar]

/-- `\s*[‚Äì\-‚Äì]\s*Build\s+\d+` -/
def build_regex : RE := reSeq [wsS, dashC, wsS, lit "Build", wsP, digP]

/-- `\s*[‚Äì\-‚Äì]\s*r\d+` -/
def revision_regex : RE := reSeq [wsS, dashC, wsS, chr 'r', digP]

/-- `\.r\d+` -/
def revision_dot_regex : RE := reSeq [chr '.', chr 'r', digP]

/-- `\s+r\d+` -/
def revision_standalone_regex : RE := reSeq [wsP, chr 'r', digP]

/-- `\s*[‚Äì\-‚Äì]\s*\d{1,2}\.\d{1,2}\.\d{4}` -/
def date_regex : RE :=
  reSeq [wsS, dashC, wsS, dig12, chr '.', dig12, chr '.', rep (RE.cls isDigitC) 4]

/-- `\s*[‚Äì\-‚Äì]\s*\d{8}_\d{4}-\d+` -/
def date_regex2 : RE :=
  reSeq [wsS, dashC, wsS, rep (RE.cls isDigitC) 8, chr '_',
         rep (RE.cls isDigitC) 4, chr '-', digP]

/-- `(?:Deluxe|Premium|Ultimate|Gold|Special|Collector'?s?|Game\s+of\s+the\s+Year)` -/
def editionNames : RE :=
  reAlts [lit "Deluxe", lit "Premium", lit "Ultimate", lit "Gold", lit "Special",
          reSeq [lit "Collector", opt (chr '\''), opt (chr 's')],
          reSeq [lit "Game", wsP, lit "of", wsP, lit "the", wsP, lit "Year"]]

/-- `\s*[‚Äì\-‚Äì:]\s*(?:Digital\s+)?(?:…editions…)\s+Edition` -/
def edition_regex : RE :=
  reSeq [wsS, RE.cls (fun c => isDashMoji c || c == ':'), wsS,
         opt (reSeq [lit "Digital", wsP]), editionNames, wsP, lit "Edition"]

/-- `,\s*(?:Digital\s+)?(?:…editions…)\s+Edition` -/
def edition_comma_regex : RE :=
  reSeq [chr ',', wsS, opt (reSeq [lit "Digital", wsP]), editionNames, wsP,
         lit "Edition"]

/-- `\s*[‚Äì\-‚Äì]\s*v\d+(?:\.\d+)*(?:\.\d+)*\s*\+.*` -/
def dlc_regex : RE :=
  reSeq [wsS, dashC, wsS, chr 'v', digP, dotDigStar, dotDigStar, wsS, chr '+',
         dotAll]

/-- `\s*,\s*v\d+(?:\.\d+)*(?:\.\d+)*.*` -/
def dlc_regex2 : RE :=
  reSeq [wsS, chr ',', wsS, chr 'v', digP, dotDigStar, dotDigStar, dotAll]

/-- `\s*\+.*` -/
def dlc_content_regex : RE := reSeq [wsS, chr '+', dotAll]

/-- `\s*\([^)]*\)` -/
def paren_regex : RE :=
  reSeq [wsS, chr '(', RE.star (RE.cls (fun c => !(c == ')'))), chr ')']

/-- `\s*[‚Äì\-‚Äì]\s*(?:GOG|Steam|GOG/Steam|MS|Epic|Origin|Uplay|Battle\.net)` -/
def platform_regex : RE :=
  reSeq [wsS, dashC, wsS,
         reAlts [lit "GOG", lit "Steam", lit "GOG/Steam", lit "MS", lit "Epic",
                 lit "Origin", lit "Uplay", lit "Battle.net"]]

/-- `\s+(?:GOG|Steam|MS|Epic|Origin|Uplay|Battle\.net)$` -/
def platform_end_regex : RE :=
  reSeq [wsP,
         reAlts [lit "GOG", lit "Steam", lit "MS", lit "Epic", lit "Origin",
                 lit "Uplay", lit "Battle.net"],
         RE.anchorE]

/-- `\s+build\s+\d+` -/
def build_after_version_regex : RE := reSeq [wsP, lit "build", wsP, digP]

/-- `\s*[‚Äì\-‚Äì]\s*build\s+\d+` -/
def standalone_build_regex : RE := reSeq [wsS, dashC, wsS, lit "build", wsP, digP]

/-- `\s*[‚Äì\-‚Äì]\s*Hotfix\s+\d+` -/
def hotfix_regex : RE := reSeq [wsS, dashC, wsS, lit "Hotfix", wsP, digP]

/-- `\s*[‚Äì\-‚Äì]?\s*Release$` -/
def release_regex : RE := reSeq [wsS, opt dashC, wsS, lit "Release", RE.anchorE]

/-- `\s*Data\s+Pack\s+\d+\.\d+$` -/
def datapack_regex : RE :=
  reSeq [wsS, lit "Data", wsP, lit "Pack", wsP, digP, chr '.', digP, RE.anchorE]

/-- `\s*[‚Äì\-‚Äì]\s*(?:Monkey|Turtle|Compressed|BetterRepack).*$` -/
def repack_regex : RE :=
  reSeq [wsS, dashC, wsS,
         reAlts [lit "Monkey", lit "Turtle", lit "Compressed", lit "BetterRepack"],
         dotAll, RE.anchorE]

/-- `\s*[‚Äì\-‚Äì]\s*(?:Jackdaw|Supporter|Anniversary|Limited|Collector's?|Special|Enhanced|Definitive|Remastered|Director's? Cut|Game\s+of\s+[Tt]he\s+Year|Master\s+Crafted|Khaos\s+Reigns\s+Kollection)\s+Edition` -/
def specific_edition_regex : RE :=
  reSeq [wsS, dashC, wsS,
         reAlts [lit "Jackdaw", lit "Supporter", lit "Anniversary", lit "Limited",
                 reSeq [lit "Collector'", opt (chr 's')],
                 lit "Special", lit "Enhanced", lit "Definitive", lit "Remastered",
                 reSeq [lit "Director'", opt (chr 's'), lit " Cut"],
                 reSeq [lit "Game", wsP, lit "of", wsP,
                        RE.cls (fun c => c == 'T' || c == 't'), lit "he", wsP,
                        lit "Year"],
                 reSeq [lit "Master", wsP, lit "Crafted"],
                 reSeq [lit "Khaos", wsP, lit "Reigns", wsP, lit "Kollection"]],
         wsP, lit "Edition"]

/-- `\s+` (replaced by a single space) -/
def space_regex : RE := wsP

/-- `[,:\-‚Äì\s]+$` -/
def trailing_regex : RE :=
  RE.cat
    (RE.cat (RE.cls (fun c => c == ',' || c == ':' || isDashMoji c || isWhite c))
            (RE.star (RE.cls (fun c => c == ',' || c == ':' || isDashMoji c || isWhite c))))
    RE.anchorE

/-- `clean_game_title` (title_cleaner.rs lines 5–118): the 25 deletion rules in
source order, then trim, whitespace collapse and trailing-punctuation strip. -/
def clean_game_title (title : List Char) : List Char :=
  let c := delAll slash_regex title
  let c := delAll comma_version_regex c
  let c := delAll comma_build_regex c
  let c := delAll version_regex c
  let c := delAll build_regex c
  let c := delAll revision_regex c
  let c := delAll revision_dot_regex c
  let c := delAll revision_standalone_regex c
  let c := delAll date_regex c
  let c := delAll date_regex2 c
  let c := delAll edition_regex c
  let c := delAll edition_comma_regex c
  let c := delAll dlc_regex c
  let c := delAll dlc_regex2 c
  let c := delAll dlc_content_regex c
  let c := delAll paren_regex c
  let c := delAll platform_regex c
  let c := delAll platform_end_regex c
  let c := delAll build_after_version_regex c
  let c := delAll standalone_build_regex c
  let c := delAll hotfix_regex c
  let c := delAll release_regex c
  let c := delAll datapack_regex c
  let c := delAll repack_regex c
  let c := delAll specific_edition_regex c
  let c := trimList c
  let c := replaceAll space_regex [' '] c
  let c := delAll trailing_regex c
  c

/-- `clean_game_title` on Lean strings. -/
def cleanGameTitleS (s : String) : String :=
  ⟨clean_game_title s.data⟩

/-!
### Blacklist filtering

`FitGirlCrawler::is_blacklisted` (desktop crawler/fitgirl.rs lines 46–53)
and `is_popular_blacklisted` (src-tauri commands/utils.rs lines 136–164).
-/

/-- The crawler's blacklist test: some pattern is contained in the lowercased
URL or the lowercased title.  The pattern list is the crawler's `blacklist`
field, passed here as an argument. -/
def is_blacklisted (blacklist : List (List Char)) (url title : List Char) : Bool :=
  let url_lower := lowerStr url
  let title_lower := lowerStr title
  blacklist.any (fun pattern =>
    containsSub url_lower pattern || containsSub title_lower pattern)

/-- `load_blacklist` default patterns (desktop fitgirl.rs lines 38–44). -/
def default_blacklist : List (List Char) :=
  ["upcoming-repacks".data, "updates-digest".data]

/-- `load_popular_blacklist` (utils.rs lines 145–165): hardcoded patterns. -/
def load_popular_blacklist : List (List Char) :=
  ["the-genesis-order".data, "one-more-night".data,
   "honeycome-come-come-party".data, "honey-select-2-libido".data,
   "gym-manager".data, "nymphomaniac-sex-addict".data, "lust-n-dead".data,
   "violet".data, "roomgirl-paradise".data, "house-party".data,
   "venus-vacation-prism-dead-or-alive-xtreme".data,
   "under-the-witch-heros-journey".data, "taboo-trial".data,
   "lost-chapter".data, "koikatsu".data, "av-director".data]

/-- `is_popular_blacklisted` (utils.rs lines 136–143): URL-only matching
against the hardcoded popular blacklist. -/
def is_popular_blacklisted (url : List Char) : Bool :=
  let url_lower := lowerStr url
  load_popular_blacklist.any (fun pattern => containsSub url_lower pattern)

/-!
### Detail extraction: label scanning

`Extractors::extract_game_details` (src-tauri crawler/extractors.rs lines
32–105) first concatenates the text of the siblings of the first `h3` of the
content region (joined with single spaces) and then scans that text with
`str::find` for the field labels.  The scanning over the concatenated info
block — the algorithmic core — is embedded here; its input `full_text` is the
already-concatenated block.  All labels are ASCII, so the source's byte
offsets coincide with character offsets at every slice taken.
-/

structure GameDetails where
  genres_tags : Option (List Char)
  company : Option (List Char)
  languages : Option (List Char)
  original_size : Option (List Char)
  repack_size : Option (List Char)
deriving DecidableEq, Repr

/-- `GameDetails::default()`: every field absent. -/
def GameDetails.default : GameDetails :=
  ⟨none, none, none, none, none⟩

/-- A field value: the text after a found label, cut at `endIdx`, trimmed
(`after[..end].trim()`). -/
def sliceField (after : List Char) (endIdx : Nat) : List Char :=
  trimList (after.take endIdx)

/-- `after.find(l1).or_else(|| after.find(l2)).unwrap_or(after.len())`. -/
def endAt2 (after l1 l2 : List Char) : Nat :=
  match findSub after l1 with
  | some i => i
  | none =>
    match findSub after l2 with
    | some i => i
    | none => after.length

/-- Genres/Tags (extractors.rs lines 61–65). -/
def genresTagsOf (full_text : List Char) : Option (List Char) :=
  match findSub full_text "Genres/Tags:".data with
  | none => none
  | some i =>
    let after := full_text.drop (i + 12)
    some (sliceField after (endAt2 after "Companies:".data "Company:".data))

/-- Company/Companies (extractors.rs lines 68–76). -/
def companyOf (full_text : List Char) : Option (List Char) :=
  match findSub full_text "Companies:".data with
  | some i =>
    let after := full_text.drop (i + 10)
    some (sliceField after (endAt2 after "Languages:".data "Language:".data))
  | none =>
    match findSub full_text "Company:".data with
    | some i =>
      let after := full_text.drop (i + 8)
      some (sliceField after (endAt2 after "Languages:".data "Language:".data))
    | none => none

/-- Languages (extractors.rs lines 79–87). -/
def languagesOf (full_text : List Char) : Option (List Char) :=
  match findSub full_text "Languages:".data with
  | some i =>
    let after := full_text.drop (i + 10)
    some (sliceField after (endAt2 after "Original Size:".data "This game".data))
  | none =>
    match findSub full_text "Language:".data with
    | some i =>
      let after := full_text.drop (i + 9)
      some (sliceField after (endAt2 after "Original Size:".data "This game".data))
    | none => none

/-- Original Size (extractors.rs lines 90–94): end at `Repack Size:`, else at
most 100 characters. -/
def originalSizeOf (full_text : List Char) : Option (List Char) :=
  match findSub full_text "Original Size:".data with
  | none => none
  | some i =>
    let after := full_text.drop (i + 14)
    let e :=
      match findSub after "Repack Size:".data with
      | some j => j
      | none => min after.length 100
    some (sliceField after e)

/-- Repack Size (extractors.rs lines 97–101): end at `Download`, else at most
100 characters. -/
def repackSizeOf (full_text : List Char) : Option (List Char) :=
  match findSub full_text "Repack Size:".data with
  | none => none
  | some i =>
    let after := full_text.drop (i + 12)
    let e :=
      match findSub after "Download".data with
      | some j => j
      | none => min after.length 100
    some (sliceField after e)

/-- The label scanning of `extract_game_details` over the concatenated info
block (extractors.rs lines 61–101).  The source's five `if let` blocks each
assign one distinct field of the `GameDetails::default()` value and read only
`full_text`, so the sequential assignments are exactly these five independent
field computations. -/
def extract_game_details (full_text : List Char) : GameDetails :=
  { GameDetails.default with
    genres_tags := genresTagsOf full_text
    company := companyOf full_text
    languages := languagesOf full_text
    original_size := originalSizeOf full_text
    repack_size := repackSizeOf full_text }

/-!
### Screenshot selection

`RiotPixelsClient::fetch_screenshots` (src-tauri crawler/riotpixels.rs lines
72–159): each thumbnail's `onclick` attribute carries a JSON array of items
`{o, s, u}` (original flag, byte size, URL).  The selection over one parsed
group is embedded here.  `Iterator::find` takes the first matching item;
`max_by_key` takes the LAST maximal element, `min_by_key` the FIRST minimal
element (Rust std semantics); missing keys default to `0` for the maximum and
to `i64::MAX` for the minimum, as in the source.
-/

structure ShotItem where
  o : Option ℤ
  s : Option ℤ
  u : Option (List Char)
deriving DecidableEq, Repr

structure ScreenshotData where
  full_url : List Char
  thumbnail_url : Option (List Char)
deriving DecidableEq, Repr

/-- Rust `Iterator::max_by_key` (last of the maxima). -/
def maxByKey (key : ShotItem → ℤ) (l : List ShotItem) : Option ShotItem :=
  l.foldl
    (fun acc x =>
      match acc with
      | none => some x
      | some m => if key m ≤ key x then some x else some m)
    none

/-- Rust `Iterator::min_by_key` (first of the minima). -/
def minByKey (key : ShotItem → ℤ) (l : List ShotItem) : Option ShotItem :=
  l.foldl
    (fun acc x =>
      match acc with
      | none => some x
      | some m => if key x < key m then some x else some m)
    none

/-- `item.get("s").and_then(|s| s.as_i64()).unwrap_or(0)` -/
def sKeyD0 (it : ShotItem) : ℤ := it.s.getD 0

/-- `item.get("s").and_then(|s| s.as_i64()).unwrap_or(i64::MAX)` -/
def sKeyDMax (it : ShotItem) : ℤ := it.s.getD (2 ^ 63 - 1)

/-- `json_array.iter().find(|item| item.get("o")… == Some(1))` -/
def findOrigFlag (items : List ShotItem) : Option ShotItem :=
  items.find? (fun it => it.o == some 1)

/-- The full-resolution pick: the item flagged `o = 1`, else the item with the
largest byte size (riotpixels.rs lines 120–126). -/
def fullResItem (items : List ShotItem) : Option ShotItem :=
  match findOrigFlag items with
  | some it => some it
  | none => maxByKey sKeyD0 items

/-- The thumbnail pick: the item with the smallest byte size (lines 129–130). -/
def thumbnailItem (items : List ShotItem) : Option ShotItem :=
  minByKey sKeyDMax items

/-- `str::replace("http:", "https:")` (all non-overlapping occurrences,
scanned left to right). -/
def httpUpgrade : List Char → List Char
  | 'h' :: 't' :: 't' :: 'p' :: ':' :: rest => "https:".data ++ httpUpgrade rest
  | c :: rest => c :: httpUpgrade rest
  | [] => []

/-- The screenshot pushed for one parsed onclick group (riotpixels.rs lines
132–145): requires the selected full-resolution item to carry a URL; the
thumbnail URL is optional.  `http:` is upgraded to `https:` in both. -/
def selectScreenshot (items : List ShotItem) : Option ScreenshotData :=
  match fullResItem items with
  | none => none
  | some full =>
    match full.u with
    | none => none
    | some full_url =>
      some ⟨httpUpgrade full_url,
            ((thumbnailItem items).bind (fun it => it.u)).map httpUpgrade⟩

/-!
### The incremental update loop

`update_database` (desktop commands/crawler_commands.rs lines 94–175).  The
crawler and the storage collaborator appear as function-valued parameters: a
page crawl either fails (the loop logs and stops) or yields a batch of
records; the URL existence check either fails or answers; the batch save
either fails (the page's count is not added) or succeeds.  `Unit`-valued
errors stand for the source's error values, whose content only reaches logs.
-/

structure MagnetLink where
  source : List Char
  magnet : List Char
deriving DecidableEq, Repr

/-- `GameRepack` (desktop crawler/models.rs). -/
structure GameRepack where
  title : List Char
  genres_tags : Option (List Char)
  company : Option (List Char)
  languages : Option (List Char)
  original_size : Option (List Char)
  repack_size : Option (List Char)
  url : List Char
  date : Option (List Char)
  image_url : Option (List Char)
  magnet_links : List MagnetLink
deriving DecidableEq, Repr

/-- The environment of one `update_database` run: the crawler and the
database service calls it performs. -/
structure UpdateEnv where
  latestDate : Except Unit (Option (List Char))
  crawlPage : Nat → Except Unit (List GameRepack)
  checkUrlExists : List Char → Except Unit Bool
  saveOk : List GameRepack → Bool

/-- The per-page filter (crawler_commands.rs lines 130–139): keep a record
when the existence check answers `false`, and also when it errors
(`Err(_) => true`). -/
def filterNewRepacks (env : UpdateEnv) (repacks : List GameRepack) : List GameRepack :=
  repacks.filter (fun r =>
    match env.checkUrlExists r.url with
    | .ok exists0 => !exists0
    | .error _ => true)

/-- One `update_database` loop iteration and onward, at `current_page = page`
with `total_new_games = total`; returns the final `(current_page - 1,
total_new_games)` (the `CrawlProgress` fields).  The source's loop breaks
after incrementing the page only through the `current_page > 10` safety test,
so recursion stops at page 10. -/
def updateLoop (env : UpdateEnv) : Nat → Nat → Nat × Nat
  | page, total =>
    match env.crawlPage page with
    | .error _ => (page - 1, total)
    | .ok repacks =>
      if repacks = [] then (page - 1, total)
      else
        let newRepacks := filterNewRepacks env repacks
        if newRepacks = [] then (page - 1, total)
        else
          let total' := if env.saveOk newRepacks then total + newRepacks.length else total
          if 10 < page + 1 then (page, total')
          else updateLoop env (page + 1) total'
termination_by page _ => 11 - page
decreasing_by
rename_i h
simp only [not_lt] at h
omega

/-- `update_database`: early return when there is no latest date (no existing
data); otherwise run the loop from page 1.  A failing `get_latest_game_date`
aborts the command with an error. -/
def update_database (env : UpdateEnv) : Except Unit (Nat × Nat) :=
  match env.latestDate with
  | .error e => .error e
  | .ok none => .ok (0, 0)
  | .ok (some _) => .ok (updateLoop env 1 0)

/-!
### Saving batches: the URL-keyed upsert

`save_repacks_to_db` (desktop commands/crawler_commands.rs lines 179–267)
executes, per record, `INSERT INTO repacks … ON CONFLICT(url) DO UPDATE SET`
with every non-key column overwritten from the new record.  The statement's
SQLite semantics over the `repacks` table are embedded as `upsertRepack`; the
stored `clean_name` and `size` columns are derived on the way in by
`clean_game_title` and `parse_size_to_mb`, exactly as in the source.  Magnet
links and categories go to side tables keyed by the repack's row id and do not
touch `repacks` rows; they are not modelled here.
-/

/-- One row of the `repacks` table (the columns written by the upsert). -/
structure RepackRow where
  id : Nat
  title : List Char
  clean_name : List Char
  genres_tags : Option (List Char)
  company : Option (List Char)
  languages : Option (List Char)
  original_size : Option (List Char)
  repack_size : Option (List Char)
  size : Option ℤ
  url : List Char
  date : Option (List Char)
  image_url : Option (List Char)
deriving DecidableEq, Repr

/-- The `repacks` table: rows plus the next fresh row id. -/
structure RepacksTable where
  rows : List RepackRow
  nextId : Nat
deriving Repr

/-- The non-key columns a `GameRepack` is stored as (crawler_commands.rs lines
216–223): `clean_name` and `size` are computed from the record. -/
def rowOfRepack (id : Nat) (r : GameRepack) : RepackRow :=
  { id := id
    title := r.title
    clean_name := clean_game_title r.title
    genres_tags := r.genres_tags
    company := r.company
    languages := r.languages
    original_size := r.original_size
    repack_size := r.repack_size
    size := parse_size_to_mb r.repack_size
    url := r.url
    date := r.date
    image_url := r.image_url }

/-- `INSERT … ON CONFLICT(url) DO UPDATE SET …` for one record: if a row with
the same `url` exists it is updated in place (every non-key column overwritten,
`id` and `url` kept), else a fresh row is inserted. -/
def upsertRepack (t : RepacksTable) (r : GameRepack) : RepacksTable :=
  if t.rows.any (fun row => row.url = r.url) then
    { t with rows :=
        t.rows.map (fun row => if row.url = r.url then rowOfRepack row.id r else row) }
  else
    { rows := t.rows ++ [rowOfRepack t.nextId r], nextId := t.nextId + 1 }

/-- `save_repacks_to_db`: the batch loop over the prepared upsert statement. -/
def save_repacks_to_db (t : RepacksTable) (repacks : List GameRepack) : RepacksTable :=
  repacks.foldl upsertRepack t

/-!
### Concrete instances used by the theorems below
-/

/-- Every normalizer input exercised by the repository's test suite
(title_cleaner_tests.rs), in the test suite's own spelling (en dashes U+2013
where the tests use them) — this set includes the spec's §8 examples — plus a
plain-hyphen variant of each en-dash input, so that the rules behind the
mojibake dash classes are exercised as well. -/
def specTitleExamples : List String :=
  ["Cyberpunk 2077 – v2.13",
   "Elden Ring – v1.12.3",
   "Game Name – Build 12345",
   "Another Game, Build 8796429",
   "Game – r34045",
   "Game.r49909",
   "Game r12345",
   "Game – 26.09.2025",
   "Game – 20250831_2044-123",
   "Cyberpunk 2077 – Deluxe Edition",
   "Elden Ring: Premium Edition",
   "Game, Ultimate Edition",
   "Game – Gold Edition",
   "Cyberpunk 2077 – GOG",
   "Elden Ring – Steam",
   "Game GOG",
   "Cyberpunk 2077 (Denuvoless)",
   "Game (Campaign Only)",
   "Game + 5 DLCs + Bonus Content",
   "Game, v1.5 + All DLC",
   "Cyberpunk 2077: Ultimate Edition – v2.13 + 5 DLCs (GOG)",
   "Elden Ring – Deluxe Edition – v1.12.3 – Build 12345",
   "Game v20220613/Build 8796429",
   "Game – Monkey Repack",
   "Game – BetterRepack R18",
   "Game    With    Spaces",
   "Game Name - ",
   "Game Name : ",
   "Game Name , ",
   "Game – Anniversary Edition",
   "Game – Game of the Year Edition",
   "Game – Definitive Edition",
   "Cyberpunk 2077",
   "Elden Ring",
   "Game – Hotfix 5",
   "Game Data Pack 1.5",
   "S.T.A.L.K.E.R. 2: Heart of Chornobyl – v1.1.2 + Bonus Content",
   "Assassin's Creed IV: Black Flag – Jackdaw Edition",
   "Red Dead Redemption 2: Ultimate Edition – v1491.50 + Bonus Content (Steam)",
   "Cyberpunk 2077 - v2.13",
   "Elden Ring - v1.12.3",
   "Game Name - Build 12345",
   "Game - r34045",
   "Game - 26.09.2025",
   "Game - 20250831_2044-123",
   "Cyberpunk 2077 - Deluxe Edition",
   "Game - Gold Edition",
   "Cyberpunk 2077 - GOG",
   "Elden Ring - Steam",
   "Cyberpunk 2077: Ultimate Edition - v2.13 + 5 DLCs (GOG)",
   "Elden Ring - Deluxe Edition - v1.12.3 - Build 12345",
   "Game - Monkey Repack",
   "Game - BetterRepack R18",
   "Game - Anniversary Edition",
   "Game - Game of the Year Edition",
   "Game - Definitive Edition",
   "Game - Hotfix 5",
   "S.T.A.L.K.E.R. 2: Heart of Chornobyl - v1.1.2 + Bonus Content",
   "Assassin's Creed IV: Black Flag - Jackdaw Edition",
   "Red Dead Redemption 2: Ultimate Edition - v1491.50 + Bonus Content (Steam)"]

/-- A minimal record with a given URL. -/
def mkRepack (url : String) : GameRepack :=
  ⟨"T".data, none, none, none, none, none, url.data, none, none, []⟩

/-- An update environment whose storage already knows every URL. -/
def updateEnvKnown : UpdateEnv :=
  { latestDate := .ok (some "2024-01-01".data)
    crawlPage := fun _ => .ok [mkRepack "https://a/1/", mkRepack "https://a/2/"]
    checkUrlExists := fun _ => .ok true
    saveOk := fun _ => true }

/-- An update environment whose existence check always fails. -/
def updateEnvErr : UpdateEnv :=
  { latestDate := .ok (some "2024-01-01".data)
    crawlPage := fun _ => .ok [mkRepack "https://a/1/"]
    checkUrlExists := fun _ => .error ()
    saveOk := fun _ => true }

/-!
## Theorems

Helper lemmas first (shared), then one theorem per claim.
-/

theorem listStartsWith_iff : ∀ (p s : List Char),
    listStartsWith p s = true ↔ ∃ r, s = p ++ r
  | [], s => by simp [listStartsWith]
  | p :: ps, [] => by simp [listStartsWith]
  | p :: ps, c :: cs => by
    simp only [listStartsWith, Bool.and_eq_true, beq_iff_eq]
    constructor
    · rintro ⟨rfl, h⟩
      obtain ⟨r, rfl⟩ := (listStartsWith_iff ps cs).1 h
      exact ⟨r, rfl⟩
    · rintro ⟨r, h⟩
      rw [List.cons_append] at h
      injection h with h1 h2
      subst h1
      exact ⟨rfl, (listStartsWith_iff ps cs).2 ⟨r, h2⟩⟩

theorem containsSub_iff : ∀ (hay pat : List Char),
    containsSub hay pat = true ↔ ∃ u v, hay = u ++ pat ++ v
  | [], pat => by
    simp only [containsSub, listStartsWith_iff]
    constructor
    · rintro ⟨r, h⟩
      exact ⟨[], r, by simpa using h⟩
    · rintro ⟨u, v, h⟩
      refine ⟨v, ?_⟩
      have hu : u = [] := by
        cases u with
        | nil => rfl
        | cons a as => simp at h
      subst hu
      simpa using h
  | x :: t, pat => by
    simp only [containsSub, Bool.or_eq_true, listStartsWith_iff,
               containsSub_iff t pat]
    constructor
    · rintro (⟨r, h⟩ | ⟨u, v, h⟩)
      · exact ⟨[], r, by simpa using h⟩
      · exact ⟨x :: u, v, by simp [h]⟩
    · rintro ⟨u, v, h⟩
      cases u with
      | nil => exact Or.inl ⟨v, by simpa using h⟩
      | cons a as =>
        rw [List.cons_append, List.cons_append] at h
        injection h with h1 h2
        exact Or.inr ⟨as, v, h2⟩

/-- C8: a record is excluded by the blacklist filter iff some pattern occurs
as a substring of the lowercased URL or of the lowercased title; the
popular-games variant matches the lowercased URL only; matching is
case-insensitive, so the pattern `the-genesis-order` matches a URL containing
`THE-GENESIS-ORDER`. -/
theorem blacklist_matching_iff :
    (∀ bl url title, is_blacklisted bl url title = true ↔
      ∃ p ∈ bl, (∃ u v, lowerStr url = u ++ p ++ v) ∨
                 (∃ u v, lowerStr title = u ++ p ++ v)) ∧
    (∀ url, is_popular_blacklisted url = true ↔
      ∃ p ∈ load_popular_blacklist, ∃ u v, lowerStr url = u ++ p ++ v) ∧
    is_popular_blacklisted "https://fitgirl-repacks.site/THE-GENESIS-ORDER/".data = true := by
  refine ⟨?_, ?_, by decide⟩
  · intro bl url title
    simp only [is_blacklisted, List.any_eq_true, Bool.or_eq_true, containsSub_iff]
  · intro url
    simp only [is_popular_blacklisted, List.any_eq_true, containsSub_iff]

theorem foldlMax_spec (key : ShotItem → ℤ) :
    ∀ (l : List ShotItem) (a : ShotItem),
      ∃ b, l.foldl (fun acc x =>
          match acc with
          | none => some x
          | some m => if key m ≤ key x then some x else some m) (some a) = some b ∧
        (b = a ∨ b ∈ l) ∧ key a ≤ key b ∧ ∀ x ∈ l, key x ≤ key b
  | [], a => ⟨a, rfl, Or.inl rfl, le_refl _, by simp⟩
  | x :: xs, a => by
    simp only [List.foldl_cons]
    by_cases hle : key a ≤ key x
    · obtain ⟨b, hb, hmem, hkey, hall⟩ := foldlMax_spec key xs x
      refine ⟨b, by simpa [hle] using hb, ?_, le_trans hle hkey, ?_⟩
      · rcases hmem with rfl | h
        · exact Or.inr (List.mem_cons_self _ _)
        · exact Or.inr (List.mem_cons_of_mem _ h)
      · intro y hy
        rcases List.mem_cons.1 hy with rfl | h
        · exact hkey
        · exact hall y h
    · obtain ⟨b, hb, hmem, hkey, hall⟩ := foldlMax_spec key xs a
      refine ⟨b, by simpa [hle] using hb, ?_, hkey, ?_⟩
      · rcases hmem with rfl | h
        · exact Or.inl rfl
        · exact Or.inr (List.mem_cons_of_mem _ h)
      · intro y hy
        rcases List.mem_cons.1 hy with rfl | h
        · exact le_trans (le_of_lt (lt_of_not_le hle)) hkey
        · exact hall y h

theorem foldlMin_spec (key : ShotItem → ℤ) :
    ∀ (l : List ShotItem) (a : ShotItem),
      ∃ b, l.foldl (fun acc x =>
          match acc with
          | none => some x
          | some m => if key x < key m then some x else some m) (some a) = some b ∧
        (b = a ∨ b ∈ l) ∧ key b ≤ key a ∧ ∀ x ∈ l, key b ≤ key x
  | [], a => ⟨a, rfl, Or.inl rfl, le_refl _, by simp⟩
  | x :: xs, a => by
    simp only [List.foldl_cons]
    by_cases hlt : key x < key a
    · obtain ⟨b, hb, hmem, hkey, hall⟩ := foldlMin_spec key xs x
      refine ⟨b, by simpa [hlt] using hb, ?_, le_trans hkey (le_of_lt hlt), ?_⟩
      · rcases hmem with rfl | h
        · exact Or.inr (List.mem_cons_self _ _)
        · exact Or.inr (List.mem_cons_of_mem _ h)
      · intro y hy
        rcases List.mem_cons.1 hy with rfl | h
        · exact hkey
        · exact hall y h
    · obtain ⟨b, hb, hmem, hkey, hall⟩ := foldlMin_spec key xs a
      refine ⟨b, by simpa [hlt] using hb, ?_, hkey, ?_⟩
      · rcases hmem with rfl | h
        · exact Or.inl rfl
        · exact Or.inr (List.mem_cons_of_mem _ h)
      · intro y hy
        rcases List.mem_cons.1 hy with rfl | h
        · exact le_trans hkey (not_lt.1 hlt)
        · exact hall y h

theorem maxByKey_spec (key : ShotItem → ℤ) (l : List ShotItem) (h : l ≠ []) :
    ∃ b, maxByKey key l = some b ∧ b ∈ l ∧ ∀ x ∈ l, key x ≤ key b := by
  cases l with
  | nil => exact absurd rfl h
  | cons x xs =>
    obtain ⟨b, hb, hmem, hkey, hall⟩ := foldlMax_spec key xs x
    refine ⟨b, ?_, ?_, ?_⟩
    · simpa [maxByKey] using hb
    · rcases hmem with rfl | hm
      · exact List.mem_cons_self _ _
      · exact List.mem_cons_of_mem _ hm
    · intro y hy
      rcases List.mem_cons.1 hy with rfl | hm
      · exact hkey
      · exact hall y hm

theorem minByKey_spec (key : ShotItem → ℤ) (l : List ShotItem) (h : l ≠ []) :
    ∃ b, minByKey key l = some b ∧ b ∈ l ∧ ∀ x ∈ l, key b ≤ key x := by
  cases l with
  | nil => exact absurd rfl h
  | cons x xs =>
    obtain ⟨b, hb, hmem, hkey, hall⟩ := foldlMin_spec key xs x
    refine ⟨b, ?_, ?_, ?_⟩
    · simpa [minByKey] using hb
    · rcases hmem with rfl | hm
      · exact List.mem_cons_self _ _
      · exact List.mem_cons_of_mem _ hm
    · intro y hy
      rcases List.mem_cons.1 hy with rfl | hm
      · exact hkey
      · exact hall y hm

/-- C6: per parsed onclick group, the full-resolution pick is the item whose
original flag equals 1, or, when no item is flagged, an item whose byte-size
key is maximal; the thumbnail pick is an item whose byte-size key is minimal;
on a three-variant group with no flag, the largest becomes the full-resolution
URL and the smallest the thumbnail URL (both upgraded to `https:`). -/
theorem screenshot_selection_rule :
    (∀ items it, findOrigFlag items = some it → fullResItem items = some it) ∧
    (∀ items, (∀ it ∈ items, it.o ≠ some 1) → items ≠ [] →
      ∃ it, fullResItem items = some it ∧ it ∈ items ∧
        ∀ x ∈ items, sKeyD0 x ≤ sKeyD0 it) ∧
    (∀ items, items ≠ [] →
      ∃ it, thumbnailItem items = some it ∧ it ∈ items ∧
        ∀ x ∈ items, sKeyDMax it ≤ sKeyDMax x) ∧
    selectScreenshot
      [⟨none, some 100, some "http://small.jpg".data⟩,
       ⟨none, some 300, some "http://big.jpg".data⟩,
       ⟨none, some 200, some "http://mid.jpg".data⟩] =
      some ⟨"https://big.jpg".data, some "https://small.jpg".data⟩ := by
  refine ⟨?_, ?_, ?_, by decide⟩
  · intro items it h
    simp [fullResItem, h]
  · intro items hflag hne
    have hfind : findOrigFlag items = none := by
      simp only [findOrigFlag, List.find?_eq_none]
      intro it hit
      simpa using hflag it hit
    obtain ⟨b, hb, hmem, hall⟩ := maxByKey_spec sKeyD0 items hne
    exact ⟨b, by simp [fullResItem, hfind, hb], hmem, hall⟩
  · intro items hne
    obtain ⟨b, hb, hmem, hall⟩ := minByKey_spec sKeyDMax items hne
    exact ⟨b, by simp [thumbnailItem, hb], hmem, hall⟩

/-- Witness for `screenshot_selection_rule`: its no-flag conjunct applied to a
concrete two-item group. -/
theorem screenshot_selection_rule_witness :
    ∃ it, fullResItem [⟨none, some 100, some "a".data⟩,
                       ⟨none, some 300, some "b".data⟩] = some it ∧
      it ∈ [ShotItem.mk none (some 100) (some "a".data),
            ShotItem.mk none (some 300) (some "b".data)] ∧
      ∀ x ∈ [ShotItem.mk none (some 100) (some "a".data),
             ShotItem.mk none (some 300) (some "b".data)],
        sKeyD0 x ≤ sKeyD0 it :=
  screenshot_selection_rule.2.1 _ (by decide) (by decide)

set_option maxRecDepth 40000 in
/-- C7 counterexample: field values do NOT run "until the next known label or
the end of the block".  With no `Companies:`/`Company:` label present, the
Genres/Tags value runs over the `Languages:` label to the end of the block;
and an `Original Size:` value with no following `Repack Size:` label is capped
at 100 characters instead of running to the end of the block. -/
theorem extract_details_label_cex :
    (extract_game_details "Genres/Tags: RPG Languages: ENG".data).genres_tags
      = some "RPG Languages: ENG".data ∧
    "RPG Languages: ENG".data ≠ "RPG".data ∧
    (extract_game_details ("Original Size: ".data ++ List.replicate 150 'x')).original_size
      = some (List.replicate 99 'x') ∧
    List.replicate 99 'x' ≠ List.replicate 150 'x' := by
  refine ⟨by decide, by decide, by decide, by decide⟩

/-- C7 (amended): the actual field rules of `extract_game_details`.  Each
label, when present, yields the text after it cut at a field-specific
terminator: Genres/Tags at `Companies:`/`Company:`; Companies/Company at
`Languages:`/`Language:`; Languages at `Original Size:` or `This game`;
Original Size at `Repack Size:`, else capped at 100 characters; Repack Size at
`Download`, else capped at 100 characters.  First variant of a label wins; an
absent label yields a null field, and extraction never fails solely due to a
missing field. -/
theorem extract_details_field_rules (t : List Char) :
    ((extract_game_details t).genres_tags =
      match findSub t "Genres/Tags:".data with
      | none => none
      | some i =>
        some (sliceField (t.drop (i + 12))
          (endAt2 (t.drop (i + 12)) "Companies:".data "Company:".data))) ∧
    ((extract_game_details t).company =
      match findSub t "Companies:".data with
      | some i =>
        some (sliceField (t.drop (i + 10))
          (endAt2 (t.drop (i + 10)) "Languages:".data "Language:".data))
      | none =>
        match findSub t "Company:".data with
        | some i =>
          some (sliceField (t.drop (i + 8))
            (endAt2 (t.drop (i + 8)) "Languages:".data "Language:".data))
        | none => none) ∧
    ((extract_game_details t).languages =
      match findSub t "Languages:".data with
      | some i =>
        some (sliceField (t.drop (i + 10))
          (endAt2 (t.drop (i + 10)) "Original Size:".data "This game".data))
      | none =>
        match findSub t "Language:".data with
        | some i =>
          some (sliceField (t.drop (i + 9))
            (endAt2 (t.drop (i + 9)) "Original Size:".data "This game".data))
        | none => none) ∧
    ((extract_game_details t).original_size =
      match findSub t "Original Size:".data with
      | none => none
      | some i =>
        some (sliceField (t.drop (i + 14))
          (match findSub (t.drop (i + 14)) "Repack Size:".data with
           | some j => j
           | none => min (t.drop (i + 14)).length 100))) ∧
    ((extract_game_details t).repack_size =
      match findSub t "Repack Size:".data with
      | none => none
      | some i =>
        some (sliceField (t.drop (i + 12))
          (match findSub (t.drop (i + 12)) "Download".data with
           | some j => j
           | none => min (t.drop (i + 12)).length 100))) := by
  refine ⟨?_, ?_, ?_, ?_, ?_⟩
  · rcases h1 : findSub t "Genres/Tags:".data with _ | i1 <;>
      simp only [extract_game_details, genresTagsOf, h1]
  · rcases h2 : findSub t "Companies:".data with _ | i2 <;>
      rcases h3 : findSub t "Company:".data with _ | i3 <;>
      simp only [extract_game_details, companyOf, h2, h3]
  · rcases h4 : findSub t "Languages:".data with _ | i4 <;>
      rcases h5 : findSub t "Language:".data with _ | i5 <;>
      simp only [extract_game_details, languagesOf, h4, h5]
  · rcases h6 : findSub t "Original Size:".data with _ | i6 <;>
      simp only [extract_game_details, originalSizeOf, h6]
  · rcases h7 : findSub t "Repack Size:".data with _ | i7 <;>
      simp only [extract_game_details, repackSizeOf, h7]

theorem upsertRepack_url_map (t : RepacksTable) (r : GameRepack)
    (h : t.rows.any (fun row => row.url = r.url) = true) :
    (upsertRepack t r).rows.map RepackRow.url = t.rows.map RepackRow.url := by
  simp only [upsertRepack, h, if_true, List.map_map]
  apply List.map_congr_left
  intro row _
  by_cases hu : row.url = r.url
  · simp [hu, rowOfRepack]
  · simp [hu]

theorem upsertRepack_nodup (t : RepacksTable) (r : GameRepack)
    (h : (t.rows.map RepackRow.url).Nodup) :
    ((upsertRepack t r).rows.map RepackRow.url).Nodup := by
  by_cases hany : t.rows.any (fun row => row.url = r.url) = true
  · rwa [upsertRepack_url_map t r hany]
  · have hfalse : t.rows.any (fun row => row.url = r.url) = false :=
      Bool.eq_false_iff.2 hany
    have hnotin : ∀ row ∈ t.rows, ¬(row.url = r.url) := by
      intro row hrow
      have := List.any_eq_false.1 hfalse row hrow
      simpa using this
    simp only [upsertRepack, hfalse, Bool.false_eq_true, if_false, List.map_append,
               List.map_cons, List.map_nil]
    rw [List.nodup_append]
    refine ⟨h, List.nodup_singleton _, ?_⟩
    intro u hu
    obtain ⟨row, hrow, rfl⟩ := List.mem_map.1 hu
    simp only [List.mem_singleton, rowOfRepack]
    intro hEq
    exact hnotin row hrow hEq

theorem save_repacks_nodup :
    ∀ (rs : List GameRepack) (t : RepacksTable),
      (t.rows.map RepackRow.url).Nodup →
      ((save_repacks_to_db t rs).rows.map RepackRow.url).Nodup
  | [], _, h => h
  | r :: rs, t, h =>
    save_repacks_nodup rs (upsertRepack t r) (upsertRepack_nodup t r h)

/-- C9: persisting a batch upserts each record keyed by its URL.  When the URL
is already stored the upsert keeps the row count and the stored URL multiset
unchanged and overwrites every non-key column of the matching row from the new
record (with `clean_name` and `size` recomputed); when it is absent a single
fresh row is appended.  Hence any sequence of batch saves preserves the
no-two-rows-share-a-URL invariant. -/
theorem save_repacks_upsert_by_url :
    (∀ t r, t.rows.any (fun row => row.url = r.url) = true →
      (upsertRepack t r).rows.length = t.rows.length ∧
      (upsertRepack t r).rows.map RepackRow.url = t.rows.map RepackRow.url ∧
      ∀ row ∈ t.rows, row.url = r.url →
        rowOfRepack row.id r ∈ (upsertRepack t r).rows) ∧
    (∀ t r, t.rows.any (fun row => row.url = r.url) = false →
      (upsertRepack t r).rows = t.rows ++ [rowOfRepack t.nextId r]) ∧
    (∀ t rs, (t.rows.map RepackRow.url).Nodup →
      ((save_repacks_to_db t rs).rows.map RepackRow.url).Nodup) := by
  refine ⟨?_, ?_, fun t rs h => save_repacks_nodup rs t h⟩
  · intro t r h
    refine ⟨by simp [upsertRepack, h], upsertRepack_url_map t r h, ?_⟩
    intro row hrow hurl
    simp only [upsertRepack, h, if_true]
    exact List.mem_map.2 ⟨row, hrow, by simp [hurl]⟩
  · intro t r h
    simp [upsertRepack, h]

/-- Witness for `save_repacks_upsert_by_url`: a one-row table upserted with a
record carrying the same URL keeps one row, overwritten in place. -/
theorem save_repacks_upsert_by_url_witness :
    (upsertRepack ⟨[rowOfRepack 1 (mkRepack "https://a/g/")], 2⟩
        { mkRepack "https://a/g/" with title := "T2".data }).rows.length =
      [rowOfRepack 1 (mkRepack "https://a/g/")].length ∧
    rowOfRepack 1 { mkRepack "https://a/g/" with title := "T2".data } ∈
      (upsertRepack ⟨[rowOfRepack 1 (mkRepack "https://a/g/")], 2⟩
        { mkRepack "https://a/g/" with title := "T2".data }).rows := by
  obtain ⟨h1, _, h3⟩ :=
    save_repacks_upsert_by_url.1
      ⟨[rowOfRepack 1 (mkRepack "https://a/g/")], 2⟩
      { mkRepack "https://a/g/" with title := "T2".data }
      (by decide)
  exact ⟨h1, h3 (rowOfRepack 1 (mkRepack "https://a/g/")) (by decide) (by decide)⟩

theorem updateLoop_fst_le (env : UpdateEnv) :
    ∀ (n page total : Nat), 11 - page ≤ n → page ≤ 10 →
      (updateLoop env page total).1 ≤ 10
  | 0, page, _, hn, hp => by omega
  | n + 1, page, total, hn, hp => by
    rw [updateLoop]
    rcases hc : env.crawlPage page with e | rs
    · simpa using Nat.le_trans (Nat.sub_le page 1) hp
    · simp only []
      by_cases hrs : rs = []
      · simpa [hrs] using Nat.le_trans (Nat.sub_le page 1) hp
      · simp only [hrs, if_false]
        by_cases hnew : filterNewRepacks env rs = []
        · simpa [hnew] using Nat.le_trans (Nat.sub_le page 1) hp
        · simp only [hnew, if_false]
          by_cases hpage : 10 < page + 1
          · simpa [hpage]
          · simp only [hpage, if_false]
            exact updateLoop_fst_le env n (page + 1) _ (by omega) (by omega)

/-- C1: the incremental update starts at page 1, keeps exactly the records
whose URL the existence check does not report as already present, stops at the
first page whose batch yields no new record (returning the pages-crawled count
`page - 1` unchanged), and never reports more than 10 pages crawled; in
particular, when every record of page 1 is already known it ends after page 1
with zero new records — whatever the crawler would return for later pages. -/
theorem update_database_incremental :
    (∀ env (d : List Char) rs, env.latestDate = .ok (some d) →
      env.crawlPage 1 = .ok rs →
      (∀ r ∈ rs, env.checkUrlExists r.url = .ok true) →
      update_database env = .ok (0, 0)) ∧
    (∀ env res, update_database env = .ok res → res.1 ≤ 10) ∧
    (∀ env rs r, r ∈ filterNewRepacks env rs ↔
      (r ∈ rs ∧ env.checkUrlExists r.url ≠ .ok true)) ∧
    (∀ env page total rs, env.crawlPage page = .ok rs → rs ≠ [] →
      filterNewRepacks env rs = [] →
      updateLoop env page total = (page - 1, total)) := by
  have hmem : ∀ env rs (r : GameRepack), r ∈ filterNewRepacks env rs ↔
      (r ∈ rs ∧ env.checkUrlExists r.url ≠ .ok true) := by
    intro env rs r
    simp only [filterNewRepacks, List.mem_filter]
    rcases h : env.checkUrlExists r.url with e | b
    · simp [h]
    · cases b <;> simp [h]
  refine ⟨?_, ?_, hmem, ?_⟩
  · intro env d rs hdate hcrawl hknown
    have hfilter : filterNewRepacks env rs = [] := by
      simp only [filterNewRepacks, List.filter_eq_nil_iff]
      intro r hr
      simp [hknown r hr]
    simp only [update_database, hdate]
    by_cases hrs : rs = []
    · rw [updateLoop]
      simp [hcrawl, hrs]
    · rw [updateLoop]
      simp [hcrawl, hrs, hfilter]
  · intro env res hres
    rcases hdate : env.latestDate with e | od
    · simp [update_database, hdate] at hres
    · rcases od with _ | d
      · simp only [update_database, hdate] at hres
        injection hres with h
        simp [← h]
      · simp only [update_database, hdate] at hres
        injection hres with h
        rw [← h]
        exact updateLoop_fst_le env 10 1 0 (by omega) (by omega)
  · intro env page total rs hcrawl hrs hfilter
    rw [updateLoop]
    simp [hcrawl, hrs, hfilter]

/-- Witness for `update_database_incremental`: in an environment whose storage
already knows every URL of page 1, the update ends after page 1 with zero new
records. -/
theorem update_database_incremental_witness :
    update_database updateEnvKnown = .ok (0, 0) :=
  update_database_incremental.1 updateEnvKnown "2024-01-01".data
    [mkRepack "https://a/1/", mkRepack "https://a/2/"] rfl rfl (fun _ _ => rfl)

/-- C10: a record whose URL existence check errors is treated as new — it
stays in the filtered batch — and the per-page filtering step never fails: it
always returns a sublist of the page's batch, whatever the storage answers. -/
theorem update_filter_keeps_on_error :
    (∀ env rs (r : GameRepack) (e : Unit), r ∈ rs →
      env.checkUrlExists r.url = .error e → r ∈ filterNewRepacks env rs) ∧
    (∀ env rs, filterNewRepacks env rs ⊆ rs) := by
  constructor
  · intro env rs r e hr herr
    simp only [filterNewRepacks, List.mem_filter]
    exact ⟨hr, by simp [herr]⟩
  · intro env rs x hx
    exact (List.mem_filter.1 hx).1

theorem val_fpMulPow2 (f : Fp) (k : ℕ) :
    Fp.val (fpMulPow2 f k) = Fp.val f * 2 ^ k := by
  simp only [Fp.val, fpMulPow2]
  rw [zpow_add₀ (by norm_num : (2 : ℚ) ≠ 0), zpow_natCast, mul_assoc]

theorem f64ToI64_eq_floor (f : Fp) (hm : 0 ≤ f.m) (hlt : Fp.val f < 2 ^ 63) :
    f64ToI64 f = ⌊Fp.val f⌋ := by
  rcases le_or_lt 0 f.e with he | he
  · have hteq : ((f.m * 2 ^ f.e.toNat : ℤ) : ℚ) = Fp.val f := by
      simp only [Fp.val]
      push_cast
      rw [← zpow_natCast (2 : ℚ) f.e.toNat, Int.toNat_of_nonneg he]
    have hfl : ⌊Fp.val f⌋ = f.m * 2 ^ f.e.toNat := by
      rw [← hteq, Int.floor_intCast]
    have ht63 : f.m * 2 ^ f.e.toNat < 2 ^ 63 := by
      have h1 : ((f.m * 2 ^ f.e.toNat : ℤ) : ℚ) < ((2 ^ 63 : ℤ) : ℚ) := by
        rw [hteq]
        push_cast
        exact hlt
      exact_mod_cast h1
    have ht0 : (0 : ℤ) ≤ f.m * 2 ^ f.e.toNat :=
      mul_nonneg hm (pow_nonneg (by norm_num) _)
    simp only [f64ToI64, if_pos he]
    rw [if_neg (not_le.2 ht63), if_neg (not_lt.2 (le_trans (by norm_num) ht0)), hfl]
  · have hke : ((-f.e).toNat : ℤ) = -f.e := Int.toNat_of_nonneg (by omega)
    have hval : Fp.val f = (f.m : ℚ) / ((2 ^ (-f.e).toNat : ℕ) : ℚ) := by
      simp only [Fp.val]
      rw [div_eq_mul_inv]
      congr 1
      push_cast
      rw [← zpow_natCast (2 : ℚ) (-f.e).toNat, ← zpow_neg, hke, neg_neg]
    have hfl : ⌊Fp.val f⌋ = f.m / ((2 ^ (-f.e).toNat : ℕ) : ℤ) := by
      rw [hval, Rat.floor_intCast_div_natCast]
    have htd : Int.tdiv f.m (2 ^ (-f.e).toNat) = f.m / ((2 ^ (-f.e).toNat : ℕ) : ℤ) := by
      rw [Int.tdiv_eq_ediv hm (by positivity)]
      push_cast
      rfl
    have ht0 : (0 : ℤ) ≤ f.m / ((2 ^ (-f.e).toNat : ℕ) : ℤ) :=
      Int.ediv_nonneg hm (by positivity)
    have ht63 : f.m / ((2 ^ (-f.e).toNat : ℕ) : ℤ) < 2 ^ 63 := by
      have h1 : ((f.m / ((2 ^ (-f.e).toNat : ℕ) : ℤ) : ℤ) : ℚ) ≤ Fp.val f := by
        rw [← hfl]
        exact Int.floor_le _
      have h2 : ((f.m / ((2 ^ (-f.e).toNat : ℕ) : ℤ) : ℤ) : ℚ) < ((2 ^ 63 : ℤ) : ℚ) := by
        refine lt_of_le_of_lt h1 ?_
        push_cast
        exact hlt
      exact_mod_cast h2
    simp only [f64ToI64, if_neg (not_le.2 he)]
    rw [htd, if_neg (not_le.2 ht63), if_neg (not_lt.2 (le_trans (by norm_num) ht0)), hfl]

/-- C5: unit conversion of the size normalizer.  The recognized units are MB,
GB, TB with factors `2^0`, `2^10`, `2^20` (1, 1024, 1024·1024 MB).  Whenever
the numeric token parses to a nonnegative double `f` within range, the result
is exactly `⌊value(f) · factor⌋` — the factor applied exactly (a power of
two), rounded down; fractional numeric parts are accepted:
`parseSize("1.1 GB") = 1126`, `parseSize("1 TB") = 1048576`. -/
theorem size_unit_conversion :
    parse_size_to_mb (some "1.1 GB".data) = some 1126 ∧
    parse_size_to_mb (some "1 TB".data) = some 1048576 ∧
    (∀ u, listStartsWith "MB".data u = true → unitFactorOf u = some 0) ∧
    (∀ u, listStartsWith "GB".data u = true → unitFactorOf u = some 10) ∧
    (∀ u, listStartsWith "TB".data u = true → unitFactorOf u = some 20) ∧
    (∀ s n u rest k f, splitWS s = n :: u :: rest →
      unitFactorOf u = some k → parseF64 n = some f →
      0 ≤ f.m → Fp.val f * 2 ^ k < 2 ^ 63 →
      parse_single_size s = some ⌊Fp.val f * 2 ^ k⌋) := by
  refine ⟨by decide, by decide, ?_, ?_, ?_, ?_⟩
  · intro u h
    simp [unitFactorOf, h]
  · intro u h
    obtain ⟨r, rfl⟩ := (listStartsWith_iff _ _).1 h
    simp [unitFactorOf, listStartsWith]
  · intro u h
    obtain ⟨r, rfl⟩ := (listStartsWith_iff _ _).1 h
    simp [unitFactorOf, listStartsWith]
  · intro s n u rest k f hsplit hunit hf hm hlt
    have hmk : 0 ≤ (fpMulPow2 f k).m := hm
    have hvk : Fp.val (fpMulPow2 f k) = Fp.val f * 2 ^ k := val_fpMulPow2 f k
    have := f64ToI64_eq_floor (fpMulPow2 f k) hmk (by rw [hvk]; exact hlt)
    simp only [parse_single_size, hsplit, hunit, hf, Option.map_some']
    rw [this, hvk]

/-- Witness for `size_unit_conversion`: its conversion conjunct applied to
`"1.1 GB"`, whose numeric token parses to the double `4953959590107546·2⁻⁵²`. -/
theorem size_unit_conversion_witness :
    parse_single_size "1.1 GB".data =
      some ⌊Fp.val ⟨4953959590107546, -52⟩ * 2 ^ 10⌋ :=
  size_unit_conversion.2.2.2.2.2 "1.1 GB".data "1.1".data "GB".data [] 10
    ⟨4953959590107546, -52⟩ (by decide) (by decide) (by decide) (by decide)
    (by norm_num [Fp.val])

theorem splitOnChar_ne_nil (sep : Char) : ∀ s, splitOnChar sep s ≠ []
  | [] => by simp [splitOnChar]
  | c :: rest => by
    simp only [splitOnChar]
    by_cases h : (c == sep) = true
    · simp [h]
    · simp only [h, if_false]
      rcases hs : splitOnChar sep rest with _ | ⟨g, gs⟩
      · simp
      · simp

theorem contains_splitOnChar_len (sep : Char) :
    ∀ s : List Char, s.contains sep = true → 2 ≤ (splitOnChar sep s).length
  | [], h => by simp at h
  | c :: rest, h => by
    simp only [splitOnChar]
    by_cases hc : (c == sep) = true
    · simp only [hc, if_true, List.length_cons]
      have := splitOnChar_ne_nil sep rest
      have : 0 < (splitOnChar sep rest).length := List.length_pos.2 this
      omega
    · simp only [hc, if_false]
      have hrest : rest.contains sep = true := by
        simp only [List.contains_cons, Bool.or_eq_true] at h
        rcases h with h | h
        · rw [beq_iff_eq] at h
          rw [beq_iff_eq] at hc
          exact absurd h.symm hc
        · exact h
      have h2 := contains_splitOnChar_len sep rest hrest
      rcases hs : splitOnChar sep rest with _ | ⟨g, gs⟩
      · exact absurd hs (splitOnChar_ne_nil sep rest)
      · rw [hs] at h2
        simpa using h2

/-- C2: the dual-size rule of the size normalizer.  A stripped size string
containing `/` is split there; the first candidate imputes the second part's
unit token when the first part is a single token and the second has at least
two; when both candidates parse the minimum is returned, and when only one
parses it is returned alone.  `parseSize("916 MB/1.1 GB") = 916` and
`parseSize("1.1/1.3 GB") = 1126`. -/
theorem dual_size_minimum :
    parse_size_to_mb (some "916 MB/1.1 GB".data) = some 916 ∧
    parse_size_to_mb (some "1.1/1.3 GB".data) = some 1126 ∧
    (∀ raw (a b : ℤ), (stripSizeStr raw).contains '/' = true →
      firstCandidateSize (trimList ((splitOnChar '/' (stripSizeStr raw)).headD []))
          (trimList ((splitOnChar '/' (stripSizeStr raw)).getD 1 [])) = some a →
      parse_single_size (trimList ((splitOnChar '/' (stripSizeStr raw)).getD 1 [])) =
        some b →
      parse_size_to_mb (some raw) = some (min a b)) ∧
    (∀ raw (a : ℤ), (stripSizeStr raw).contains '/' = true →
      firstCandidateSize (trimList ((splitOnChar '/' (stripSizeStr raw)).headD []))
          (trimList ((splitOnChar '/' (stripSizeStr raw)).getD 1 [])) = some a →
      parse_single_size (trimList ((splitOnChar '/' (stripSizeStr raw)).getD 1 [])) =
        none →
      parse_size_to_mb (some raw) = some a) ∧
    (∀ raw (b : ℤ), (stripSizeStr raw).contains '/' = true →
      firstCandidateSize (trimList ((splitOnChar '/' (stripSizeStr raw)).headD []))
          (trimList ((splitOnChar '/' (stripSizeStr raw)).getD 1 [])) = none →
      parse_single_size (trimList ((splitOnChar '/' (stripSizeStr raw)).getD 1 [])) =
        some b →
      parse_size_to_mb (some raw) = some b) ∧
    (∀ fp sp sp0 v rest, (splitWS fp).length = 1 → splitWS sp = sp0 :: v :: rest →
      firstCandidateSize fp sp = parse_single_size (fp ++ ' ' :: v)) := by
  refine ⟨by decide, by decide, ?_, ?_, ?_, ?_⟩
  · intro raw a b hc h1 h2
    have hlen := contains_splitOnChar_len '/' (stripSizeStr raw) hc
    rw [parse_size_to_mb, if_pos hc, if_pos hlen]
    simp only []
    rw [h1, h2]
  · intro raw a hc h1 h2
    have hlen := contains_splitOnChar_len '/' (stripSizeStr raw) hc
    rw [parse_size_to_mb, if_pos hc, if_pos hlen]
    simp only []
    rw [h1, h2]
  · intro raw b hc h1 h2
    have hlen := contains_splitOnChar_len '/' (stripSizeStr raw) hc
    rw [parse_size_to_mb, if_pos hc, if_pos hlen]
    simp only []
    rw [h1, h2]
  · intro fp sp sp0 v rest h1 h2
    rw [firstCandidateSize, h2, h1]
    simp

/-- Witness for `dual_size_minimum`: its both-parse conjunct applied to
`"916 MB/1.1 GB"`. -/
theorem dual_size_minimum_witness :
    parse_size_to_mb (some "916 MB/1.1 GB".data) = some (min 916 1126) :=
  dual_size_minimum.2.2.1 "916 MB/1.1 GB".data 916 1126 (by decide) (by decide)
    (by decide)

set_option maxRecDepth 200000 in
/-- C3 counterexample: the title normalizer is NOT idempotent.  On
`"Game GOG -"` the first pass only strips the trailing dash (the last rule),
leaving `"Game GOG"`; a second pass then strips the now-final platform tag,
giving `"Game"`. -/
theorem clean_game_title_not_idempotent :
    cleanGameTitleS (cleanGameTitleS "Game GOG -") ≠ cleanGameTitleS "Game GOG -" ∧
    cleanGameTitleS "Game GOG -" = "Game GOG" ∧
    cleanGameTitleS "Game GOG" = "Game" := by
  refine ⟨?_, by decide, by decide⟩
  decide

theorem all_comp_eq (l : List String) (f : String → String) (p : String → Bool) :
    l.all (fun t => p (f t)) = (l.map f).all p := by
  induction l with
  | nil => rfl
  | cons x xs ih => simp [ih]

set_option maxRecDepth 200000 in
set_option maxHeartbeats 4000000 in
theorem specTitleExamples_cleaned :
    specTitleExamples.map cleanGameTitleS =
  ["Cyberpunk 2077 – v2.13",
   "Elden Ring – v1.12.3",
   "Game Name – Build 12345",
   "Another Game",
   "Game –",
   "Game",
   "Game",
   "Game – 26.09.2025",
   "Game – 20250831_2044-123",
   "Cyberpunk 2077 – Deluxe Edition",
   "Elden Ring",
   "Game",
   "Game – Gold Edition",
   "Cyberpunk 2077 –",
   "Elden Ring –",
   "Game",
   "Cyberpunk 2077",
   "Game",
   "Game",
   "Game",
   "Cyberpunk 2077 – v2.13",
   "Elden Ring – Deluxe Edition – v1.12.3 – Build 12345",
   "Game v20220613",
   "Game – Monkey Repack",
   "Game – BetterRepack R18",
   "Game With Spaces",
   "Game Name",
   "Game Name",
   "Game Name",
   "Game – Anniversary Edition",
   "Game – Game of the Year Edition",
   "Game – Definitive Edition",
   "Cyberpunk 2077",
   "Elden Ring",
   "Game – Hotfix 5",
   "Game",
   "S.T.A.L.K.E.R. 2: Heart of Chornobyl – v1.1.2",
   "Assassin's Creed IV: Black Flag – Jackdaw Edition",
   "Red Dead Redemption 2 – v1491.50",
   "Cyberpunk 2077",
   "Elden Ring",
   "Game Name",
   "Game",
   "Game",
   "Game",
   "Cyberpunk 2077",
   "Game",
   "Cyberpunk 2077",
   "Elden Ring",
   "Cyberpunk 2077",
   "Elden Ring",
   "Game",
   "Game",
   "Game",
   "Game",
   "Game",
   "Game",
   "S.T.A.L.K.E.R. 2: Heart of Chornobyl",
   "Assassin's Creed IV: Black Flag",
   "Red Dead Redemption 2"] := by
  decide

set_option maxRecDepth 200000 in
set_option maxHeartbeats 4000000 in
theorem specTitleExamples_cleaned_fixed :
    (["Cyberpunk 2077 – v2.13",
   "Elden Ring – v1.12.3",
   "Game Name – Build 12345",
   "Another Game",
   "Game –",
   "Game",
   "Game",
   "Game – 26.09.2025",
   "Game – 20250831_2044-123",
   "Cyberpunk 2077 – Deluxe Edition",
   "Elden Ring",
   "Game",
   "Game – Gold Edition",
   "Cyberpunk 2077 –",
   "Elden Ring –",
   "Game",
   "Cyberpunk 2077",
   "Game",
   "Game",
   "Game",
   "Cyberpunk 2077 – v2.13",
   "Elden Ring – Deluxe Edition – v1.12.3 – Build 12345",
   "Game v20220613",
   "Game – Monkey Repack",
   "Game – BetterRepack R18",
   "Game With Spaces",
   "Game Name",
   "Game Name",
   "Game Name",
   "Game – Anniversary Edition",
   "Game – Game of the Year Edition",
   "Game – Definitive Edition",
   "Cyberpunk 2077",
   "Elden Ring",
   "Game – Hotfix 5",
   "Game",
   "S.T.A.L.K.E.R. 2: Heart of Chornobyl – v1.1.2",
   "Assassin's Creed IV: Black Flag – Jackdaw Edition",
   "Red Dead Redemption 2 – v1491.50",
   "Cyberpunk 2077",
   "Elden Ring",
   "Game Name",
   "Game",
   "Game",
   "Game",
   "Cyberpunk 2077",
   "Game",
   "Cyberpunk 2077",
   "Elden Ring",
   "Cyberpunk 2077",
   "Elden Ring",
   "Game",
   "Game",
   "Game",
   "Game",
   "Game",
   "Game",
   "S.T.A.L.K.E.R. 2: Heart of Chornobyl",
   "Assassin's Creed IV: Black Flag",
   "Red Dead Redemption 2"] : List String).all (fun c => cleanGameTitleS c == c) = true := by
  decide

/-- C3 (amended): the title normalizer is idempotent on every normalizer input
exercised by the spec's testable properties and by the repository's test
suite (and on the plain-hyphen variants of its en-dash inputs). -/
theorem clean_game_title_idempotent_on_examples :
    (specTitleExamples.all
      (fun t => cleanGameTitleS (cleanGameTitleS t) == cleanGameTitleS t)) = true := by
  rw [all_comp_eq specTitleExamples cleanGameTitleS (fun c => cleanGameTitleS c == c),
      specTitleExamples_cleaned]
  exact specTitleExamples_cleaned_fixed

set_option maxRecDepth 200000 in
set_option maxHeartbeats 4000000 in
/-- C4: evaluation at the claimed inputs.  With the en dash U+2013 (as written
in the spec and in the repository's own test suite) the titles pass through
UNCHANGED, because the cleaner's dash character classes hold the mojibake
bytes U+201A/U+00C4/U+00EC instead of the en dash; with a plain hyphen the
claimed strippings do happen. -/
theorem clean_game_title_dash_bug :
    cleanGameTitleS "Cyberpunk 2077 – v2.13" = "Cyberpunk 2077 – v2.13" ∧
    cleanGameTitleS "Elden Ring – Deluxe Edition – v1.12.3 – Build 12345" =
      "Elden Ring – Deluxe Edition – v1.12.3 – Build 12345" ∧
    cleanGameTitleS "Cyberpunk 2077 - v2.13" = "Cyberpunk 2077" ∧
    cleanGameTitleS "Elden Ring - Deluxe Edition - v1.12.3 - Build 12345" =
      "Elden Ring" ∧
    "Cyberpunk 2077 – v2.13" ≠ "Cyberpunk 2077" := by
  exact ⟨by decide, by decide, by decide, by decide, by decide⟩

/-- Witness for `update_filter_keeps_on_error`: with an always-failing
existence check the page-1 record is kept. -/
theorem update_filter_keeps_on_error_witness :
    mkRepack "https://a/1/" ∈ filterNewRepacks updateEnvErr [mkRepack "https://a/1/"] :=
  update_filter_keeps_on_error.1 updateEnvErr [mkRepack "https://a/1/"]
    (mkRepack "https://a/1/") () (by decide) rfl
